import Mathlib

/-!
Shallow embedding of the real-time chat core of the `nojs` repository:
the message store, identity resolver (colors and user hashes), subscriber
registry with non-blocking broadcast, the live delivery pump, and the
streaming-capability check of the HTTP transport.  Queues of Go channels
are modelled as lists (FIFO), Go maps as association lists, wall-clock
times as `Nat` parameters passed in by the caller, and each lock-protected
operation as a pure state-passing function (the lock guarantees the
operation sees and produces a single consistent state).
-/

namespace NoJS

/-- Message record of the streaming chat demo (`type Message struct` in the
demo source): id (decimal string of the UnixNano timestamp), username, text,
timestamp and the assigned display color. -/
structure Message where
  id : String
  username : String
  text : String
  timestamp : Nat
  color : String
deriving Repr, DecidableEq

/-- Capacity of every subscriber delivery channel: `make(chan Message, 10)`
in `messagesStreamHandler`. -/
def chanCapacity : Nat := 10

/-- Non-blocking send on a bounded channel, the meaning of
`select { case client <- msg: default: }` on a channel of capacity
`chanCapacity`: enqueue at the back when there is room, otherwise leave the
queue exactly as it was (the message is dropped for that subscriber). -/
def trySend {α : Type} (q : List α) (x : α) : List α :=
  if q.length < chanCapacity then q ++ [x] else q

/-- Subscriber registry: the `streamClients map[chan Message]bool` set,
modelled as a list of channels, each identified by a handle (`Nat`) and
carrying its queued fragments. -/
abbrev Registry := List (Nat × List Message)

/-- Embedding of `broadcastMessage(msg)`: under the registry lock, perform a
non-blocking send of `msg` to every registered channel. -/
def broadcastMessage (clients : Registry) (msg : Message) : Registry :=
  clients.map (fun c => (c.1, trySend c.2 msg))

/-- Embedding of the pump's deferred cleanup
`delete(streamClients, msgChan)` (and of `ChatRoom.Unsubscribe`): remove the
channel with the given handle from the registry. -/
def unregister (clients : Registry) (handle : Nat) : Registry :=
  clients.filter (fun c => c.1 != handle)

/-- The fixed 8-color palette, the `colors` slice of the chat demos. -/
def colors : List String :=
  ["#FF6B6B", "#4ECDC4", "#45B7D1", "#F7B731",
   "#5F27CD", "#00D2D3", "#FF9FF3", "#54A0FF"]

/-- The `colorMap map[string]string`, as an association list in insertion
order (so its length is the Go map's `len`). -/
abbrev ColorMap := List (String × String)

/-- Embedding of `getUserColor(username)`: under `colorMu`, return the
memoized color if present, otherwise assign
`colors[len(colorMap) % len(colors)]` and record it. -/
def getUserColor (m : ColorMap) (username : String) : String × ColorMap :=
  match m.lookup username with
  | some color => (color, m)
  | none =>
      let color := colors.getD (m.length % colors.length) ""
      (color, m ++ [(username, color)])

/-- Run a sequence of `getUserColor` calls from a given map, keeping only
the final map. -/
def runColors (m : ColorMap) (calls : List String) : ColorMap :=
  calls.foldl (fun acc u => (getUserColor acc u).2) m

/-- First-seen subsequence of a call sequence, extending an initial list of
already-seen keys: each key is kept at its first occurrence only. -/
def firstSeenFrom (ks : List String) (calls : List String) : List String :=
  calls.foldl (fun acc u => if u ∈ acc then acc else acc ++ [u]) ks

/-- First-seen subsequence of a call sequence. -/
def firstSeen (calls : List String) : List String := firstSeenFrom [] calls

/-- Color map obtained by assigning `colors[(n + i) % len(colors)]` to the
i-th key of a list of distinct keys. -/
def paletteAssignAux (n : Nat) : List String → ColorMap
  | [] => []
  | k :: ks => (k, colors.getD (n % colors.length) "") :: paletteAssignAux (n + 1) ks

/-- Color map assigning `colors[i % len(colors)]` to the i-th key. -/
def paletteAssign (ks : List String) : ColorMap := paletteAssignAux 0 ks

/-- Decimal rendering of a natural number left-padded with zeros to width 4,
the meaning of Go's `fmt.Sprintf("%04d", n)` for non-negative `n`. -/
def pad4 (n : Nat) : String :=
  let s := toString n
  String.mk (List.replicate (4 - s.length) '0') ++ s

/-- The `userHashes map[string]string`, as an association list. -/
abbrev HashCache := List (String × String)

/-- Embedding of `getUserHash(username)`: under `hashMu`, return the
memoized hash if present, otherwise derive
`fmt.Sprintf("%04d", time.Now().UnixNano() % 10000)` from the current time
(passed in as `now`) and record it. -/
def getUserHash (m : HashCache) (username : String) (now : Nat) :
    String × HashCache :=
  match m.lookup username with
  | some hash => (hash, m)
  | none =>
      let hash := pad4 (now % 10000)
      (hash, m ++ [(username, hash)])

/-- Run a sequence of `getUserHash` calls (each with its own clock reading),
keeping only the final cache. -/
def runHashes (m : HashCache) (calls : List (String × Nat)) : HashCache :=
  calls.foldl (fun acc c => (getUserHash acc c.1 c.2).2) m

/-- Message record of the example application (`type ChatMessage struct` in
the demo main): sequential integer id, username, message text, timestamp. -/
structure ChatMessage where
  id : Nat
  username : String
  message : String
  timestamp : Nat
deriving Repr, DecidableEq

/-- State of `type ChatRoom struct`: the append-only message log, the
subscriber map (`map[string]chan ChatMessage`, channels of capacity 10), and
the `nextID` counter. -/
structure ChatRoom where
  messages : List ChatMessage
  subscribers : List (String × List ChatMessage)
  nextID : Nat
deriving Repr, DecidableEq

/-- The initial `chatRoom` value: empty log, no subscribers, `nextID: 1`. -/
def chatRoomInit : ChatRoom :=
  { messages := [], subscribers := [], nextID := 1 }

/-- Embedding of `ChatRoom.AddMessage(username, message)`: under the room
lock, build a message with id `nextID` and the current time, increment the
counter, append to the log, and perform a non-blocking send to every
subscriber channel. -/
def ChatRoom.addMessage (cr : ChatRoom) (username message : String)
    (now : Nat) : ChatRoom :=
  let msg : ChatMessage :=
    { id := cr.nextID, username := username, message := message, timestamp := now }
  { messages := cr.messages ++ [msg],
    subscribers := cr.subscribers.map (fun s => (s.1, trySend s.2 msg)),
    nextID := cr.nextID + 1 }

/-- Embedding of `ChatRoom.GetMessages()`: under the shared lock, copy the
last 50 messages of the log (all of them when there are at most 50). -/
def ChatRoom.getMessages (cr : ChatRoom) : List ChatMessage :=
  let start := if cr.messages.length > 50 then cr.messages.length - 50 else 0
  cr.messages.drop start

/-- One `AddMessage` call: author, text and the clock reading at the call. -/
structure AppendInput where
  username : String
  message : String
  now : Nat
deriving Repr, DecidableEq

/-- Run a sequence of `AddMessage` calls against a room. -/
def appendAll (cr : ChatRoom) (inputs : List AppendInput) : ChatRoom :=
  inputs.foldl (fun r i => r.addMessage i.username i.message i.now) cr

/-- The messages a sequence of `AddMessage` calls produces when the counter
starts at `n`: ids `n, n+1, ...` paired with the inputs in call order. -/
def appendedFrom (n : Nat) : List AppendInput → List ChatMessage
  | [] => []
  | i :: is =>
      { id := n, username := i.username, message := i.message, timestamp := i.now }
        :: appendedFrom (n + 1) is

/-- Shared mutable state of the streaming chat demo: the `messages` log, the
`colorMap` cache and the `streamClients` registry. -/
structure ChatState where
  messages : List Message
  colorMap : ColorMap
  streamClients : Registry
deriving Repr, DecidableEq

/-- Response produced by the send handler: every exit path is
`ctx.Redirect(http.StatusSeeOther, "/")`, i.e. a 303 redirect. -/
inductive HandlerResponse where
  | redirect (status : Nat) (location : String)
deriving Repr, DecidableEq

/-- Embedding of `sendMessageHandler`: reject non-POST requests with a
redirect; reject an empty username or text with a redirect; otherwise build
the message (id and timestamp from the clock reading `now`, color from
`getUserColor`, called while the store lock is held), append it to the log
and broadcast it to the streaming clients (the `go broadcastMessage(msg)`
goroutine, modelled as its eventual effect). -/
def sendMessageHandler (method username text : String) (now : Nat)
    (s : ChatState) : HandlerResponse × ChatState :=
  if method ≠ "POST" then (.redirect 303 "/", s)
  else if username = "" ∨ text = "" then (.redirect 303 "/", s)
  else
    let r := getUserColor s.colorMap username
    let msg : Message :=
      { id := toString now, username := username, text := text,
        timestamp := now, color := r.1 }
    (.redirect 303 "/",
      { messages := s.messages ++ [msg],
        colorMap := r.2,
        streamClients := broadcastMessage s.streamClients msg })

/-- The three events the pump's `select` can wake on:
`ctx.Request.Context().Done()`, a message arriving on `msgChan`, and the
30-second `time.After` keep-alive timer. -/
inductive PumpEvent where
  | done
  | msg (m : Message)
  | timeout
deriving Repr, DecidableEq

/-- Writes the pump can issue on its stream: a rendered message fragment
(`stream.WriteNode(renderMessage(msg))`), the keep-alive comment
(`stream.KeepAlive()`), and the trailer `</body></html>`
(`stream.EndHTML()`). -/
inductive StreamWrite where
  | fragment (m : Message)
  | keepAlive
  | trailer
deriving Repr, DecidableEq

/-- The write a single non-cancellation pump event causes (`done` is mapped
to the trailer it triggers). -/
def eventWrite : PumpEvent → StreamWrite
  | .done => .trailer
  | .msg m => .fragment m
  | .timeout => .keepAlive

/-- Embedding of the pump's `for { select { ... } }` loop, driven by the
sequence of events the runtime delivers: a message event writes its
fragment and loops, a timeout writes a keep-alive and loops, and the
cancellation event writes the trailer via `stream.EndHTML()` and returns
(events after it are never consumed).  An exhausted event list means the
pump is still parked in `select` and has written nothing further. -/
def pumpLoop : List PumpEvent → List StreamWrite
  | [] => []
  | .done :: _ => [.trailer]
  | .msg m :: evs => .fragment m :: pumpLoop evs
  | .timeout :: evs => .keepAlive :: pumpLoop evs

/-- Typed error of the framework, `type HTTPError struct` with its code and
message (`NewHTTPError` leaves the wrapped error nil). -/
structure HTTPError where
  code : Nat
  message : String
deriving Repr, DecidableEq

/-- Embedding of `NewHTTPError(code, message)`. -/
def NewHTTPError (code : Nat) (message : String) : HTTPError :=
  { code := code, message := message }

/-- The three response headers `Context.Stream` sets before returning a
`StreamWriter`. -/
def streamHeaders : List (String × String) :=
  [("Content-Type", "text/html; charset=utf-8"),
   ("Cache-Control", "no-cache"),
   ("X-Content-Type-Options", "nosniff")]

/-- Embedding of `Context.Stream()`: fail with a typed 500 error when the
server's `StreamingEnabled` flag is off, fail with a typed 500 error when
the response writer is not an `http.Flusher`, and otherwise set the
streaming headers and hand out the stream writer.  The first component
records the headers the call has set. -/
def contextStream (streamingEnabled supportsFlusher : Bool) :
    List (String × String) × Except HTTPError Unit :=
  if !streamingEnabled then
    ([], .error (NewHTTPError 500 "Streaming not enabled"))
  else if !supportsFlusher then
    ([], .error (NewHTTPError 500 "Streaming not supported"))
  else
    (streamHeaders, .ok ())

/-- Outcome of the `/messages` handler: either the static fallback page
rendering the current log, or a started stream with the writes it issues
(snapshot fragments first, then the pump loop). -/
inductive StreamOutcome where
  | staticPage (msgs : List Message)
  | streaming (writes : List StreamWrite)
deriving Repr, DecidableEq

/-- Embedding of `messagesStreamHandler`: when `ctx.Stream()` fails it
serves `messagesStaticHandler` (a plain full page of the current log);
otherwise it streams the snapshot of existing messages and then runs the
pump loop on the events the runtime delivers. -/
def messagesStreamHandler (streamingEnabled supportsFlusher : Bool)
    (s : ChatState) (events : List PumpEvent) : StreamOutcome :=
  match contextStream streamingEnabled supportsFlusher with
  | (_, .error _) => .staticPage s.messages
  | (_, .ok ()) =>
      .streaming (s.messages.map StreamWrite.fragment ++ pumpLoop events)

/-- The four locks of the core: `mu` (message store), `colorMu`, `hashMu`
(identity resolver caches) and `streamMu` (subscriber registry). -/
inductive Lock where
  | store
  | color
  | hash
  | registry
deriving Repr, DecidableEq

/-- A lock acquisition or release event on an execution path. -/
inductive LockEvent where
  | acq (l : Lock)
  | rel (l : Lock)
deriving Repr, DecidableEq

/-- Lock trace of `getUserColor`: `colorMu.Lock()` … `defer colorMu.Unlock()`. -/
def getUserColorLocks : List LockEvent := [.acq .color, .rel .color]

/-- Lock trace of `getUserHash`: `hashMu.Lock()` … `defer hashMu.Unlock()`. -/
def getUserHashLocks : List LockEvent := [.acq .hash, .rel .hash]

/-- Lock trace of `broadcastMessage`: `streamMu.Lock()` … `defer streamMu.Unlock()`. -/
def broadcastMessageLocks : List LockEvent := [.acq .registry, .rel .registry]

/-- Lock trace of subscriber registration in `messagesStreamHandler`:
`streamMu.Lock(); streamClients[msgChan] = true; streamMu.Unlock()`. -/
def registerLocks : List LockEvent := [.acq .registry, .rel .registry]

/-- Lock trace of the pump's deferred cleanup:
`streamMu.Lock(); delete(streamClients, msgChan); streamMu.Unlock()`. -/
def unregisterLocks : List LockEvent := [.acq .registry, .rel .registry]

/-- Lock trace of the append section of `sendMessageHandler` (the streaming
demo): `mu.Lock()`, then the `Message` literal calls `getUserColor`, which
acquires and releases `colorMu` while `mu` is still held, then `mu.Unlock()`. -/
def sendMessageLocks : List LockEvent :=
  [.acq .store] ++ getUserColorLocks ++ [.rel .store]

/-- Lock trace of `ChatDemo.sendMessageHandler` (the struct-based variant):
`getUserHash` runs before the store lock is taken, then the append section
nests `getUserColor` inside the store lock exactly as above. -/
def sendMessageDemoLocks : List LockEvent :=
  getUserHashLocks ++ [.acq .store] ++ getUserColorLocks ++ [.rel .store]

/-- Number of locks held after each step of a trace (Go mutexes are not
reentrant and every trace releases what it acquired). -/
def heldCounts (tr : List LockEvent) : List Nat :=
  tr.scanl (fun n e => match e with | .acq _ => n + 1 | .rel _ => n - 1) 0

/-- Maximum number of locks held simultaneously at any point of a trace. -/
def maxHeld (tr : List LockEvent) : Nat :=
  (heldCounts tr).foldl max 0

/-- All nesting pairs of a trace: `(outer, inner)` for every acquisition of
`inner` performed while `outer` is held. -/
def nestedAcquisitions : List LockEvent → List Lock → List (Lock × Lock)
  | [], _ => []
  | .acq l :: rest, held =>
      held.map (fun o => (o, l)) ++ nestedAcquisitions rest (held ++ [l])
  | .rel l :: rest, held => nestedAcquisitions rest (held.erase l)

/-- Nesting pairs of a trace started with no lock held. -/
def lockNestings (tr : List LockEvent) : List (Lock × Lock) :=
  nestedAcquisitions tr []

/-- Concrete message used to instantiate universally quantified theorems. -/
def msgW : Message :=
  { id := "1", username := "alice", text := "hi", timestamp := 1, color := "#FF6B6B" }

/-- Concrete shared state used to instantiate universally quantified
theorems. -/
def stateW : ChatState :=
  { messages := [msgW], colorMap := [("alice", "#FF6B6B")], streamClients := [(1, [])] }

/-- Broadcasting never adds or removes registry entries and never changes a
handle: it only updates queues in place. -/
theorem map_fst_broadcastMessage (clients : Registry) (msg : Message) :
    (broadcastMessage clients msg).map Prod.fst = clients.map Prod.fst := by
  simp [broadcastMessage]

/-- Any sequence of broadcasts leaves the set of registered handles
unchanged. -/
theorem foldl_broadcast_map_fst (msgs : List Message) (R : Registry) :
    (msgs.foldl broadcastMessage R).map Prod.fst = R.map Prod.fst := by
  induction msgs generalizing R with
  | nil => rfl
  | cons m ms ih => simp [List.foldl_cons, ih, map_fst_broadcastMessage]

/-- A handle that was unregistered is absent from the registry reached by
any sequence of subsequent broadcasts. -/
theorem not_mem_foldl_broadcast_unregister (clients : Registry) (handle : Nat)
    (msgs : List Message) :
    handle ∉ (msgs.foldl broadcastMessage (unregister clients handle)).map Prod.fst := by
  rw [foldl_broadcast_map_fst]
  simp only [unregister, List.mem_map, List.mem_filter, not_exists]
  rintro ⟨k, q⟩ ⟨⟨-, hk⟩, rfl⟩
  simp at hk

/-- C1: Broadcast enqueues the fragment on every registered channel whose
queue holds fewer than `chanCapacity = 10` entries, appended at the back
(FIFO preserved), and leaves a full channel's entry exactly as it was (no
eviction, no alteration).  The result at position `i` depends only on the
entry at position `i`, so a full channel never blocks or affects delivery to
the others, and `broadcastMessage` is a total function (the non-blocking
send never waits). -/
theorem broadcast_nonblocking_delivery (clients : Registry) (msg : Message)
    (i : Nat) (h : i < clients.length)
    (h2 : i < (broadcastMessage clients msg).length) :
    (broadcastMessage clients msg).length = clients.length ∧
    chanCapacity = 10 ∧
    ((clients[i]).2.length < chanCapacity →
        (broadcastMessage clients msg)[i] =
          ((clients[i]).1, (clients[i]).2 ++ [msg])) ∧
    (¬ (clients[i]).2.length < chanCapacity →
        (broadcastMessage clients msg)[i] = clients[i]) := by
  refine ⟨by simp [broadcastMessage], rfl, ?_, ?_⟩ <;>
    intro hq <;> simp [broadcastMessage, trySend, hq]

/-- C1 witness: a subscriber with an empty queue receives the fragment. -/
theorem broadcast_nonblocking_delivery_witness :
    (broadcastMessage [(7, [])] msgW).get ⟨0, by simp [broadcastMessage]⟩ =
      (7, [msgW]) := by
  have h := broadcast_nonblocking_delivery [(7, [])] msgW 0 (by decide)
    (by simp [broadcastMessage])
  simpa using h.2.2.1 (by decide)

/-- C3 counterexample: the append section of `sendMessageHandler` holds two
of the four locks at once — it acquires `colorMu` (inside `getUserColor`)
while still holding the store lock `mu` — so the claim that every operation
holds at most one lock is false on this concrete execution path. -/
theorem send_message_holds_two_locks :
    ¬ maxHeld sendMessageLocks ≤ 1 := by decide

/-- C3 amended: every core operation except the send-message append path
holds at most one lock at a time; the send-message append path (in both the
global-variable demo and the `ChatDemo` struct variant) reaches two held
locks, and its only nesting is acquiring the color lock while holding the
store lock — no path acquires any lock while holding the color lock, so the
nesting order is fixed. -/
theorem lock_discipline_amended :
    maxHeld getUserColorLocks = 1 ∧ maxHeld getUserHashLocks = 1 ∧
    maxHeld broadcastMessageLocks = 1 ∧ maxHeld registerLocks = 1 ∧
    maxHeld unregisterLocks = 1 ∧
    maxHeld sendMessageLocks = 2 ∧ maxHeld sendMessageDemoLocks = 2 ∧
    lockNestings sendMessageLocks = [(.store, .color)] ∧
    lockNestings sendMessageDemoLocks = [(.store, .color)] ∧
    lockNestings getUserColorLocks = [] ∧ lockNestings getUserHashLocks = [] ∧
    lockNestings broadcastMessageLocks = [] ∧ lockNestings registerLocks = [] ∧
    lockNestings unregisterLocks = [] := by decide

/-- C6: after `unregister` removes a handle's channel from the registry, no
subsequent broadcast (any number of them, any fragments) targets that
handle: the handle is absent from the registry every later broadcast
iterates over, so the closed channel is never sent to (which is also why
broadcasting after cleanup cannot panic on a closed channel or block —
`broadcastMessage` only touches channels still in the registry and is a
total function). -/
theorem unregister_stops_delivery (clients : Registry) (handle : Nat)
    (msgs : List Message) :
    handle ∉ (msgs.foldl broadcastMessage (unregister clients handle)).map Prod.fst :=
  not_mem_foldl_broadcast_unregister clients handle msgs

/-- C8: a submit-message request with an empty author or an empty text is
answered with a 303 redirect to the chat page and leaves the whole shared
state — in particular the message log — exactly as it was. -/
theorem empty_fields_rejected (method username text : String) (now : Nat)
    (s : ChatState) (h : username = "" ∨ text = "") :
    sendMessageHandler method username text now s = (.redirect 303 "/", s) := by
  unfold sendMessageHandler
  by_cases hm : method = "POST" <;> simp [hm, h]

/-- C8 witness: an empty username on a POST request is rejected and the
state is untouched. -/
theorem empty_fields_rejected_witness :
    sendMessageHandler "POST" "" "hi" 0 stateW = (.redirect 303 "/", stateW) :=
  empty_fields_rejected "POST" "" "hi" 0 stateW (Or.inl rfl)

/-- C10: a request to the send endpoint whose method is not POST is answered
with a 303 redirect to the chat page and leaves every piece of shared state
unchanged: the message log, the color map and the subscriber registry are
exactly those of the incoming state. -/
theorem non_post_leaves_state_unchanged (method username text : String)
    (now : Nat) (s : ChatState) (h : method ≠ "POST") :
    sendMessageHandler method username text now s = (.redirect 303 "/", s) := by
  simp [sendMessageHandler, h]

/-- C10 witness: a GET request is redirected and the state is untouched. -/
theorem non_post_leaves_state_unchanged_witness :
    sendMessageHandler "GET" "alice" "hi" 0 stateW = (.redirect 303 "/", stateW) :=
  non_post_leaves_state_unchanged "GET" "alice" "hi" 0 stateW (by decide)

/-- Running a sequence of appends produces exactly the log extended with one
message per input, in call order, with consecutive ids starting at the
room's counter, and advances the counter by the number of inputs. -/
theorem appendAll_messages (inputs : List AppendInput) :
    ∀ cr : ChatRoom,
      (appendAll cr inputs).messages = cr.messages ++ appendedFrom cr.nextID inputs ∧
      (appendAll cr inputs).nextID = cr.nextID + inputs.length := by
  induction inputs with
  | nil => intro cr; simp [appendAll, appendedFrom]
  | cons i is ih =>
      intro cr
      have h := ih (cr.addMessage i.username i.message i.now)
      constructor
      · rw [show appendAll cr (i :: is) = appendAll (cr.addMessage i.username i.message i.now) is from rfl,
            h.1]
        simp [ChatRoom.addMessage, appendedFrom]
      · rw [show appendAll cr (i :: is) = appendAll (cr.addMessage i.username i.message i.now) is from rfl,
            h.2]
        simp [ChatRoom.addMessage]
        omega

/-- Every message produced from counter value `n` has an id of at least `n`. -/
theorem le_id_of_mem_appendedFrom {n : Nat} {is : List AppendInput}
    {m : ChatMessage} (h : m ∈ appendedFrom n is) : n ≤ m.id := by
  induction is generalizing n with
  | nil => simp [appendedFrom] at h
  | cons i is ih =>
      simp only [appendedFrom, List.mem_cons] at h
      rcases h with rfl | h
      · simp
      · exact Nat.le_of_succ_le (ih h)

/-- The ids produced by a sequence of appends are strictly increasing in
call order. -/
theorem pairwise_id_appendedFrom (is : List AppendInput) :
    ∀ n : Nat, ((appendedFrom n is).map ChatMessage.id).Pairwise (· < ·) := by
  induction is with
  | nil => intro n; simp [appendedFrom]
  | cons i is ih =>
      intro n
      simp only [appendedFrom, List.map_cons, List.pairwise_cons]
      refine ⟨?_, ih (n + 1)⟩
      intro b hb
      simp only [List.mem_map] at hb
      obtain ⟨m, hm, rfl⟩ := hb
      exact Nat.lt_of_succ_le (le_id_of_mem_appendedFrom hm)

/-- The payloads of the produced messages are the inputs in call order. -/
theorem appendedFrom_payload (is : List AppendInput) :
    ∀ n : Nat,
      (appendedFrom n is).map (fun m => (m.username, m.message)) =
        is.map (fun i => (i.username, i.message)) := by
  induction is with
  | nil => intro n; simp [appendedFrom]
  | cons i is ih => intro n; simp [appendedFrom, ih (n + 1)]

/-- A sequence of appends produces one message per input. -/
theorem length_appendedFrom (is : List AppendInput) :
    ∀ n : Nat, (appendedFrom n is).length = is.length := by
  induction is with
  | nil => intro n; rfl
  | cons i is ih => intro n; simp [appendedFrom, ih (n + 1)]

/-- C2: starting from the initial room, any sequence of `AddMessage` calls
yields a log whose entries are the submitted `(author, text)` pairs in call
order; `GetMessages` returns a contiguous suffix of that log (the last 50 at
most — the spec's read-time trim policy), equal to the whole log whenever at
most 50 appends occurred; and the ids of the snapshot are strictly
increasing in that order. -/
theorem chatroom_snapshot_order (inputs : List AppendInput) :
    (appendAll chatRoomInit inputs).messages.map (fun m => (m.username, m.message)) =
      inputs.map (fun i => (i.username, i.message)) ∧
    (appendAll chatRoomInit inputs).getMessages <:+ (appendAll chatRoomInit inputs).messages ∧
    (inputs.length ≤ 50 →
      (appendAll chatRoomInit inputs).getMessages = (appendAll chatRoomInit inputs).messages) ∧
    ((appendAll chatRoomInit inputs).getMessages.map ChatMessage.id).Pairwise (· < ·) := by
  obtain ⟨hmsg, -⟩ := appendAll_messages inputs chatRoomInit
  have hmsg' : (appendAll chatRoomInit inputs).messages = appendedFrom 1 inputs := by
    rw [hmsg]; rfl
  have hlen : (appendAll chatRoomInit inputs).messages.length = inputs.length := by
    rw [hmsg']; exact length_appendedFrom inputs 1
  refine ⟨?_, ?_, ?_, ?_⟩
  · rw [hmsg']; exact appendedFrom_payload inputs 1
  · exact List.drop_suffix _ _
  · intro h50
    have : ¬ (appendAll chatRoomInit inputs).messages.length > 50 := by omega
    simp [ChatRoom.getMessages, this]
  · have hsub : List.Sublist (appendAll chatRoomInit inputs).getMessages
        (appendAll chatRoomInit inputs).messages :=
      (List.drop_suffix _ _).sublist
    have hp : ((appendAll chatRoomInit inputs).messages.map ChatMessage.id).Pairwise (· < ·) := by
      rw [hmsg']; exact pairwise_id_appendedFrom inputs 1
    exact hp.sublist (hsub.map ChatMessage.id)

/-- C2 witness: with a single append the snapshot is the whole log. -/
theorem chatroom_snapshot_order_witness :
    (appendAll chatRoomInit [⟨"a", "x", 3⟩]).getMessages =
      (appendAll chatRoomInit [⟨"a", "x", 3⟩]).messages :=
  (chatroom_snapshot_order [⟨"a", "x", 3⟩]).2.2.1 (by decide)

/-- Unfolding lemma: one color call followed by the rest. -/
theorem runColors_cons (m : ColorMap) (u : String) (cs : List String) :
    runColors m (u :: cs) = runColors ((getUserColor m u).2) cs := rfl

/-- Unfolding lemma: one hash call followed by the rest. -/
theorem runHashes_cons (m : HashCache) (c : String × Nat) (cs : List (String × Nat)) :
    runHashes m (c :: cs) = runHashes ((getUserHash m c.1 c.2).2) cs := rfl

/-- Unfolding lemma: the first-seen list after one more call. -/
theorem firstSeenFrom_cons (ks : List String) (u : String) (cs : List String) :
    firstSeenFrom ks (u :: cs) =
      firstSeenFrom (if u ∈ ks then ks else ks ++ [u]) cs := rfl

/-- A key is absent from the palette assignment exactly when it is absent
from the key list. -/
theorem lookup_paletteAssignAux_eq_none {u : String} :
    ∀ {ks : List String} {n : Nat},
      (paletteAssignAux n ks).lookup u = none ↔ u ∉ ks := by
  intro ks
  induction ks with
  | nil => intro n; simp [paletteAssignAux]
  | cons k ks ih =>
      intro n
      by_cases hk : u = k
      · subst hk; simp [paletteAssignAux, List.lookup_cons]
      · simp [paletteAssignAux, List.lookup_cons, beq_false_of_ne hk, ih, hk]

/-- The palette assignment has one entry per key. -/
theorem length_paletteAssignAux :
    ∀ (ks : List String) (n : Nat), (paletteAssignAux n ks).length = ks.length := by
  intro ks
  induction ks with
  | nil => intro n; rfl
  | cons k ks ih => intro n; simp [paletteAssignAux, ih]

/-- Appending one key to the palette assignment appends one entry, colored
by the running count. -/
theorem paletteAssignAux_append :
    ∀ (ks : List String) (n : Nat) (u : String),
      paletteAssignAux n (ks ++ [u]) =
        paletteAssignAux n ks ++
          [(u, colors.getD ((n + ks.length) % colors.length) "")] := by
  intro ks
  induction ks with
  | nil => intro n u; simp [paletteAssignAux]
  | cons k ks ih =>
      intro n u
      rw [List.cons_append,
          show paletteAssignAux n (k :: (ks ++ [u])) =
            (k, colors.getD (n % colors.length) "") ::
              paletteAssignAux (n + 1) (ks ++ [u]) from rfl,
          ih (n + 1) u,
          show paletteAssignAux n (k :: ks) =
            (k, colors.getD (n % colors.length) "") ::
              paletteAssignAux (n + 1) ks from rfl]
      simp only [List.cons_append, List.length_cons]
      have h : n + 1 + ks.length = n + (ks.length + 1) := by omega
      rw [h]

/-- In a duplicate-free key list, the i-th key is assigned the palette color
at index `(n + i) mod len(colors)`. -/
theorem lookup_paletteAssignAux_get :
    ∀ (ks : List String), ks.Nodup →
      ∀ (n i : Nat) (h : i < ks.length),
        (paletteAssignAux n ks).lookup (ks.get ⟨i, h⟩) =
          some (colors.getD ((n + i) % colors.length) "") := by
  intro ks
  induction ks with
  | nil => intro _ n i h; exact absurd h (by simp)
  | cons k ks ih =>
      intro hnd n i h
      obtain ⟨hk, hnd'⟩ := List.nodup_cons.mp hnd
      cases i with
      | zero => simp [paletteAssignAux, List.lookup_cons]
      | succ j =>
          have hj : j < ks.length := by simpa using h
          have hget : (k :: ks).get ⟨j + 1, h⟩ = ks.get ⟨j, hj⟩ := rfl
          have hne : ks.get ⟨j, hj⟩ ≠ k := by
            intro he
            exact hk (he ▸ List.get_mem ks j hj)
          rw [hget]
          simp only [paletteAssignAux, List.lookup_cons, beq_false_of_ne hne]
          rw [ih hnd' (n + 1) j hj]
          have harith : n + 1 + j = n + (j + 1) := by omega
          rw [harith]

/-- The first-seen list never contains duplicates. -/
theorem nodup_firstSeenFrom :
    ∀ (calls ks : List String), ks.Nodup → (firstSeenFrom ks calls).Nodup := by
  intro calls
  induction calls with
  | nil => intro ks h; exact h
  | cons u cs ih =>
      intro ks h
      rw [firstSeenFrom_cons]
      by_cases hu : u ∈ ks
      · simpa [hu] using ih ks h
      · have hn : (ks ++ [u]).Nodup := by
          simp [List.nodup_append, h, hu]
        simpa [hu] using ih (ks ++ [u]) hn

/-- Replay lemma: running any call sequence from the palette assignment of
the already-seen keys lands on the palette assignment of the extended
first-seen list — the color map is fully determined by the first-seen key
order. -/
theorem runColors_eq_paletteAssign :
    ∀ (calls ks : List String),
      runColors (paletteAssign ks) calls = paletteAssign (firstSeenFrom ks calls) := by
  intro calls
  induction calls with
  | nil => intro ks; rfl
  | cons u cs ih =>
      intro ks
      rw [runColors_cons, firstSeenFrom_cons]
      by_cases hu : u ∈ ks
      · have hl : ¬ (paletteAssign ks).lookup u = none := by
          rw [show paletteAssign ks = paletteAssignAux 0 ks from rfl,
              lookup_paletteAssignAux_eq_none]
          simpa using hu
        obtain ⟨c, hc⟩ := Option.ne_none_iff_exists'.mp hl
        have h2 : (getUserColor (paletteAssign ks) u).2 = paletteAssign ks := by
          simp [getUserColor, hc]
        rw [h2]
        simp only [hu, if_true]
        exact ih ks
      · have hl : (paletteAssign ks).lookup u = none := by
          rw [show paletteAssign ks = paletteAssignAux 0 ks from rfl,
              lookup_paletteAssignAux_eq_none]
          exact hu
        have hlen : (paletteAssign ks).length = ks.length :=
          length_paletteAssignAux ks 0
        have h2 : (getUserColor (paletteAssign ks) u).2 =
            paletteAssign ks ++
              [(u, colors.getD (ks.length % colors.length) "")] := by
          simp [getUserColor, hl, hlen]
        have h3 : paletteAssign (ks ++ [u]) =
            paletteAssign ks ++
              [(u, colors.getD (ks.length % colors.length) "")] := by
          have := paletteAssignAux_append ks 0 u
          simpa [paletteAssign] using this
        rw [h2, ← h3]
        simp only [hu, if_false]
        exact ih (ks ++ [u])

/-- C4: color assignment replays deterministically. Starting from the empty
cache, the final color map depends only on the first-seen key sequence, so
two call sequences with the same first-seen keys assign identical colors;
the i-th distinct key (0-based, so the n-th has i = n−1) is assigned
`colors[i mod len(colors)]`; and with the 8-color palette the 9th distinct
key receives exactly the color of the 1st. -/
theorem color_assignment_replay :
    (∀ calls₁ calls₂ : List String, firstSeen calls₁ = firstSeen calls₂ →
        runColors [] calls₁ = runColors [] calls₂) ∧
    (∀ (calls : List String) (i : Nat) (h : i < (firstSeen calls).length),
        (runColors [] calls).lookup ((firstSeen calls).get ⟨i, h⟩) =
          some (colors.getD (i % colors.length) "")) ∧
    (∀ (calls : List String) (h8 : 8 < (firstSeen calls).length),
        (runColors [] calls).lookup ((firstSeen calls).get ⟨8, h8⟩) =
          (runColors [] calls).lookup ((firstSeen calls).get ⟨0, by omega⟩)) := by
  have hrun : ∀ calls : List String,
      runColors [] calls = paletteAssign (firstSeen calls) := by
    intro calls
    have := runColors_eq_paletteAssign calls []
    simpa [paletteAssign, paletteAssignAux, firstSeen] using this
  have key : ∀ (calls : List String) (i : Nat) (h : i < (firstSeen calls).length),
      (runColors [] calls).lookup ((firstSeen calls).get ⟨i, h⟩) =
        some (colors.getD (i % colors.length) "") := by
    intro calls i h
    rw [hrun]
    have hnd : (firstSeen calls).Nodup :=
      nodup_firstSeenFrom calls [] (by simp)
    have := lookup_paletteAssignAux_get (firstSeen calls) hnd 0 i h
    simpa [paletteAssign] using this
  refine ⟨?_, key, ?_⟩
  · intro calls₁ calls₂ h
    rw [hrun, hrun, h]
  · intro calls h8
    rw [key calls 8 h8, key calls 0 (by omega)]
    rfl

/-- C4 witness: in the call sequence a, b, a, c the third distinct key c
gets the third palette color. -/
theorem color_assignment_replay_witness :
    (runColors [] ["a", "b", "a", "c"]).lookup
        ((firstSeen ["a", "b", "a", "c"]).get ⟨2, by decide⟩) =
      some (colors.getD (2 % colors.length) "") :=
  color_assignment_replay.2.1 ["a", "b", "a", "c"] 2 (by decide)

/-- After any `getUserColor` call, the cache maps the queried key to the
returned color. -/
theorem getUserColor_lookup_self (m : ColorMap) (u : String) :
    ((getUserColor m u).2).lookup u = some (getUserColor m u).1 := by
  cases h : m.lookup u with
  | some c => simp [getUserColor, h]
  | none =>
      simp only [getUserColor, h]
      rw [List.lookup_append, h]
      simp [List.lookup_cons]

/-- A `getUserColor` call for any key never disturbs an existing cache
entry. -/
theorem lookup_getUserColor_preserved {m : ColorMap} {u c : String}
    (h : m.lookup u = some c) (v : String) :
    ((getUserColor m v).2).lookup u = some c := by
  cases hv : m.lookup v with
  | some d => simpa [getUserColor, hv] using h
  | none =>
      simp only [getUserColor, hv]
      rw [List.lookup_append, h]
      rfl

/-- A whole sequence of `getUserColor` calls never disturbs an existing
cache entry. -/
theorem lookup_runColors_preserved {m : ColorMap} {u c : String}
    (h : m.lookup u = some c) :
    ∀ calls : List String, (runColors m calls).lookup u = some c := by
  intro calls
  induction calls generalizing m with
  | nil => exact h
  | cons v cs ih =>
      rw [runColors_cons]
      exact ih (lookup_getUserColor_preserved h v)

/-- A `getUserColor` call on a cached key returns the cached color and
leaves the cache untouched. -/
theorem getUserColor_cached {m : ColorMap} {u c : String}
    (h : m.lookup u = some c) : getUserColor m u = (c, m) := by
  simp [getUserColor, h]

/-- After any `getUserHash` call, the cache maps the queried key to the
returned hash. -/
theorem getUserHash_lookup_self (m : HashCache) (u : String) (now : Nat) :
    ((getUserHash m u now).2).lookup u = some (getUserHash m u now).1 := by
  cases h : m.lookup u with
  | some c => simp [getUserHash, h]
  | none =>
      simp only [getUserHash, h]
      rw [List.lookup_append, h]
      simp [List.lookup_cons]

/-- A `getUserHash` call for any key never disturbs an existing cache
entry. -/
theorem lookup_getUserHash_preserved {m : HashCache} {u c : String}
    (h : m.lookup u = some c) (v : String) (now : Nat) :
    ((getUserHash m v now).2).lookup u = some c := by
  cases hv : m.lookup v with
  | some d => simpa [getUserHash, hv] using h
  | none =>
      simp only [getUserHash, hv]
      rw [List.lookup_append, h]
      rfl

/-- A whole sequence of `getUserHash` calls never disturbs an existing cache
entry. -/
theorem lookup_runHashes_preserved {m : HashCache} {u c : String}
    (h : m.lookup u = some c) :
    ∀ calls : List (String × Nat), (runHashes m calls).lookup u = some c := by
  intro calls
  induction calls generalizing m with
  | nil => exact h
  | cons v cs ih =>
      rw [runHashes_cons]
      exact ih (lookup_getUserHash_preserved h v.1 v.2)

/-- A `getUserHash` call on a cached key returns the cached hash — whatever
the current clock reads — and leaves the cache untouched. -/
theorem getUserHash_cached {m : HashCache} {u c : String}
    (h : m.lookup u = some c) (now : Nat) : getUserHash m u now = (c, m) := by
  simp [getUserHash, h]

/-- C5: `getUserColor` and `getUserHash` are idempotent per key. Once a
first call has allocated and memoized a value for a key, every later call
with the same key — after arbitrarily many interleaved calls with any keys,
and for the hash at any later clock reading — returns exactly the value of
the first call and leaves the cache unchanged. -/
theorem identity_resolver_idempotent :
    (∀ (m : ColorMap) (u c : String) (m' : ColorMap),
        getUserColor m u = (c, m') →
        ∀ calls : List String,
          getUserColor (runColors m' calls) u = (c, runColors m' calls)) ∧
    (∀ (m : HashCache) (u : String) (now : Nat) (c : String) (m' : HashCache),
        getUserHash m u now = (c, m') →
        ∀ (calls : List (String × Nat)) (now₂ : Nat),
          getUserHash (runHashes m' calls) u now₂ = (c, runHashes m' calls)) := by
  constructor
  · intro m u c m' hfirst calls
    have hm' : m'.lookup u = some c := by
      have := getUserColor_lookup_self m u
      rw [hfirst] at this
      exact this
    exact getUserColor_cached (lookup_runColors_preserved hm' calls)
  · intro m u now c m' hfirst calls now₂
    have hm' : m'.lookup u = some c := by
      have := getUserHash_lookup_self m u now
      rw [hfirst] at this
      exact this
    exact getUserHash_cached (lookup_runHashes_preserved hm' calls) now₂

/-- C5 witness: after alice's color is allocated and bob's is interleaved, a
repeated call for alice returns the memoized color and leaves the cache
unchanged. -/
theorem identity_resolver_idempotent_witness :
    getUserColor (runColors [("alice", "#FF6B6B")] ["bob"]) "alice" =
      ("#FF6B6B", runColors [("alice", "#FF6B6B")] ["bob"]) :=
  identity_resolver_idempotent.1 [] "alice" "#FF6B6B" [("alice", "#FF6B6B")]
    rfl ["bob"]

/-- Up to its cancellation event, the pump writes one fragment or keep-alive
per event; the cancellation itself writes the trailer and stops the loop,
consuming nothing that follows. -/
theorem pumpLoop_until_done (pre post : List PumpEvent)
    (h : PumpEvent.done ∉ pre) :
    pumpLoop (pre ++ .done :: post) = pre.map eventWrite ++ [.trailer] := by
  induction pre with
  | nil => rfl
  | cons e es ih =>
      simp only [List.mem_cons, not_or] at h
      obtain ⟨he, hes⟩ := h
      cases e with
      | done => exact absurd (rfl : PumpEvent.done = PumpEvent.done) he
      | msg m =>
          rw [List.cons_append,
              show pumpLoop (.msg m :: (es ++ .done :: post)) =
                .fragment m :: pumpLoop (es ++ .done :: post) from rfl,
              ih hes]
          rfl
      | timeout =>
          rw [List.cons_append,
              show pumpLoop (.timeout :: (es ++ .done :: post)) =
                .keepAlive :: pumpLoop (es ++ .done :: post) from rfl,
              ih hes]
          rfl

/-- C7: when the cancellation signal fires while the pump is in its wait
state (after any cancellation-free prefix of message and keep-alive events),
the pump writes each earlier event's fragment or heartbeat, then exactly one
trailer, and terminates: the trailer occurs once in the write sequence, it
is the last write (no fragment follows it), and events delivered after the
cancellation are never consumed.  The pump's deferred cleanup removes its
channel from the registry, after which a broadcast never targets that
handle — so it cannot send on the closed channel, panic, or block. -/
theorem pump_cancellation_trailer (pre post : List PumpEvent)
    (h : PumpEvent.done ∉ pre) (clients : Registry) (handle : Nat)
    (msg : Message) :
    pumpLoop (pre ++ .done :: post) = pre.map eventWrite ++ [.trailer] ∧
    (pumpLoop (pre ++ .done :: post)).count .trailer = 1 ∧
    (pumpLoop (pre ++ .done :: post)).getLast? = some .trailer ∧
    handle ∉ (broadcastMessage (unregister clients handle) msg).map Prod.fst := by
  have heq := pumpLoop_until_done pre post h
  refine ⟨heq, ?_, ?_, ?_⟩
  · rw [heq, List.count_append]
    have h0 : (pre.map eventWrite).count StreamWrite.trailer = 0 := by
      rw [List.count_eq_zero]
      intro hmem
      obtain ⟨e, he, hw⟩ := List.mem_map.mp hmem
      cases e with
      | done => exact h he
      | msg m => simp [eventWrite] at hw
      | timeout => simp [eventWrite] at hw
    rw [h0]
    rfl
  · rw [heq]
    exact List.getLast?_concat _
  · simpa using not_mem_foldl_broadcast_unregister clients handle [msg]

/-- C7 witness: a pump that saw one message and one keep-alive, then the
cancellation, writes the fragment, the heartbeat and one final trailer; the
event arriving after cancellation is ignored. -/
theorem pump_cancellation_trailer_witness :
    pumpLoop ([.msg msgW, .timeout] ++ .done :: [.msg msgW]) =
      [PumpEvent.msg msgW, PumpEvent.timeout].map eventWrite ++ [.trailer] :=
  (pump_cancellation_trailer [.msg msgW, .timeout] [.msg msgW] (by decide)
    [(1, [])] 1 msgW).1

/-- C9: when streaming is disabled or the response writer cannot flush
incrementally, `Context.Stream` fails with a typed `HTTPError` (code 500,
one of the two capability messages) before setting any streaming header,
and the subscribe handler falls back to the static non-streaming rendering
of the current log — no stream is begun and no preamble is written. -/
theorem stream_capability_fallback (en fl : Bool) (s : ChatState)
    (events : List PumpEvent) (h : en = false ∨ fl = false) :
    (∃ e : HTTPError, (contextStream en fl).2 = .error e ∧ e.code = 500 ∧
        (e.message = "Streaming not enabled" ∨
         e.message = "Streaming not supported")) ∧
    (contextStream en fl).1 = [] ∧
    messagesStreamHandler en fl s events = .staticPage s.messages := by
  cases en with
  | false =>
      exact ⟨⟨NewHTTPError 500 "Streaming not enabled", rfl, rfl, Or.inl rfl⟩,
        rfl, rfl⟩
  | true =>
      cases fl with
      | false =>
          exact ⟨⟨NewHTTPError 500 "Streaming not supported", rfl, rfl,
            Or.inr rfl⟩, rfl, rfl⟩
      | true => rcases h with h | h <;> exact absurd h (by decide)

/-- C9 witness: with streaming disabled the handler serves the static page
of the current log. -/
theorem stream_capability_fallback_witness :
    messagesStreamHandler false true stateW [] = .staticPage stateW.messages :=
  (stream_capability_fallback false true stateW [] (Or.inl rfl)).2.2

end NoJS
